import Mathlib

/-!
Verification development for the PersonalChatbot repository
(`chat/views.py`): a shallow embedding of the ingestion/deduplication
pipeline (`calculate_chunk_ids`, `add_to_chroma`), the retrieval pipeline
(`ask_chroma`), the database wipe (`clear_database`) and the populate
branch of the `chatbot` view, together with theorems settling the
specification claims.

Modelling conventions:
  * Python dicts holding chunk metadata are modelled as association lists
    `List (String × String)`; values are modelled by the string Python's
    f-string formatting would produce for them, which is all the code
    ever does with them besides equality tests on ids.
  * `None` propagation of `dict.get` is modelled by `Option`.
  * Python `str(n)` on a non-negative integer is modelled by `natToString`,
    a structurally recursive decimal printer.
  * The Chroma vector store is modelled as the ordered list of persisted
    `(id, document)` entries; `add_documents` appends.
  * Fallible operations (a `KeyError` on `metadata["id"]`, `rmtree` on a
    missing path) return `Option`.
  * External collaborators (PDF loading, text splitting, embedding,
    similarity search, the generative model) are parameters: the chunk
    list, the search result list and the generator function are inputs.
-/

namespace PersonalChatbot

/-- Decimal digit character for a value `d < 10` (ASCII `'0'` + d),
as produced by Python `str` on integers. -/
def digitOf (d : Nat) : Char := Char.ofNat (48 + d)

/-- Numeric value of a decimal digit character. -/
def chval (c : Char) : Nat := c.toNat - 48

/-- Fuel-indexed decimal rendering of a natural number, most significant
digit first.  The fuel argument makes the recursion structural. -/
def natCharsAux : Nat → Nat → List Char
  | 0, _ => []
  | fuel + 1, n =>
    if n < 10 then [digitOf n]
    else natCharsAux fuel (n / 10) ++ [digitOf (n % 10)]

/-- Decimal digit string of a natural number (model of Python `str(n)`
for `n ≥ 0`). -/
def natChars (n : Nat) : List Char := natCharsAux (n + 1) n

/-- Model of Python `str(n)` for a non-negative integer `n`. -/
def natToString (n : Nat) : String := String.mk (natChars n)

/-- Model of a Python dict lookup `m.get(k)`: value of the first binding
of key `k`, if any. -/
def metaGet (m : List (String × String)) (k : String) : Option String :=
  (m.find? (fun p => p.1 == k)).map Prod.snd

/-- Model of a Python dict write `m[k] = v`: overwrite the binding of `k`
in place if present, otherwise append a new binding. -/
def metaSet (m : List (String × String)) (k v : String) :
    List (String × String) :=
  if (m.find? (fun p => p.1 == k)).isSome then
    m.map (fun p => if p.1 == k then (k, v) else p)
  else m ++ [(k, v)]

/-- A langchain `Document` as the code uses it: the chunk text
(`page_content`) and the metadata dict. -/
structure Document where
  page_content : String
  metadata : List (String × String)
deriving DecidableEq

/-- Model of Python's f-string rendering of a `dict.get` result:
the value itself, or `"None"` when the key was absent. -/
def pyStr : Option String → String
  | some s => s
  | none => "None"

/-- The page identity string `f"{source}:{page}"` computed by
`calculate_chunk_ids` (views.py line 109). -/
def pageIdOf (c : Document) : String :=
  pyStr (metaGet c.metadata "source") ++ ":" ++ pyStr (metaGet c.metadata "page")

/-- Loop body of `calculate_chunk_ids` (views.py lines 106-119): given the
previous page identity (`last_page_id`) and running counter
(`current_chunk_index`), assign each chunk its id. -/
def calcGo : Option String → Nat → List Document → List Document
  | _, _, [] => []
  | last, cur, c :: cs =>
    let pid := pageIdOf c
    let idx := if some pid = last then cur + 1 else 0
    let cid := pid ++ ":" ++ natToString idx
    { c with metadata := metaSet c.metadata "id" cid } :: calcGo (some pid) idx cs

/-- `calculate_chunk_ids` (views.py lines 93-121): starts with
`last_page_id = None` and `current_chunk_index = 0`. -/
def calculate_chunk_ids (chunks : List Document) : List Document :=
  calcGo none 0 chunks

/-- The `"id"` metadata entry of a chunk (`chunk.metadata["id"]`, as an
`Option` so a missing key is a `KeyError`, not a default). -/
def getId (c : Document) : Option String := metaGet c.metadata "id"

/-- The Chroma vector store, modelled as the ordered list of persisted
`(id, document)` entries. -/
structure ChromaDB where
  entries : List (String × Document)
deriving DecidableEq

/-- The stored ids, as returned by `db.get(include=[])["ids"]`. -/
def ChromaDB.ids (db : ChromaDB) : List String := db.entries.map Prod.fst

/-- The selection loop of `add_to_chroma` (views.py lines 79-82 and 86):
keep, paired with its id, every chunk whose `metadata["id"]` is not among
the existing ids; `none` models the `KeyError` on a chunk with no id. -/
def select_new (existing_ids : List String) :
    List Document → Option (List (String × Document))
  | [] => some []
  | c :: cs =>
    match getId c, select_new existing_ids cs with
    | some i, some rest =>
      some (if existing_ids.contains i then rest else (i, c) :: rest)
    | _, _ => none

/-- Result of one `add_to_chroma` run: the updated store, the number of
newly persisted chunks, and the lines printed to the console. -/
structure AddResult where
  db : ChromaDB
  added_count : Nat
  log : List String
deriving DecidableEq

/-- `add_to_chroma` (views.py lines 59-90): read the existing ids, assign
chunk ids, keep only the chunks whose id is not already present, append
them to the store.  The count of new chunks is only printed. -/
def add_to_chroma (chunks : List Document) (db : ChromaDB) : Option AddResult :=
  let chunks_with_ids := calculate_chunk_ids chunks
  let existing_ids := db.ids
  match select_new existing_ids chunks_with_ids with
  | none => none
  | some new_chunks =>
    some
      { db := ⟨db.entries ++ new_chunks⟩
        added_count := new_chunks.length
        log :=
          ("Number of existing documents in DB: " ++
              natToString existing_ids.dedup.length) ::
            (if new_chunks.length ≠ 0 then
              ["👉 Adding new documents: " ++ natToString new_chunks.length]
            else ["✅ No new documents to add"]) }

/-- The persisted-index directory name (views.py line 13). -/
def CHROMA_PATH : String := "chroma"

/-- The filesystem, abstracted as the list of existing paths. -/
abbrev FS := List String

/-- Model of `os.path.exists`. -/
def path_exists (fs : FS) (p : String) : Bool := fs.contains p

/-- Model of `shutil.rmtree p`: removes `p` and everything below it;
raises (returns `none`) when `p` does not exist. -/
def rmtree (fs : FS) (p : String) : Option FS :=
  if path_exists fs p then
    some (fs.filter (fun q => !(q == p || q.startsWith (p ++ "/"))))
  else none

/-- `clear_database` (views.py lines 124-129): remove the index directory
only if it exists. -/
def clear_database (fs : FS) : Option FS :=
  if path_exists fs CHROMA_PATH then rmtree fs CHROMA_PATH else some fs

/-- Model of Python `sep.join(parts)`. -/
def pyJoin (sep : String) : List String → String
  | [] => ""
  | t :: ts => ts.foldl (fun acc x => acc ++ sep ++ x) t

/-- The prompt string `ChatPromptTemplate.from_template(PROMPT_TEMPLATE)
.format(context=..., question=...)` produces (views.py lines 15-23 and
147-148): the fixed template with the two slots filled, rendered as a
single human chat message. -/
def format_prompt (context question : String) : String :=
  "Human: \nAnswer the question based only on the following context:\n\n" ++
    context ++
    "\n\n---\n\nAnswer the question based on the above context: " ++
    question ++ "\n"

/-- CPython `repr` of one element of the sources list: a quoted string
for an id (ids never contain quote or escape characters), `None` for a
missing id. -/
def pyReprSource : Option String → String
  | none => "None"
  | some s => "\x27" ++ s ++ "\x27"

/-- CPython rendering `f"{sources}"` of the sources list. -/
def pyReprSources (l : List (Option String)) : String :=
  "[" ++ pyJoin ", " (l.map pyReprSource) ++ "]"

/-- Everything `ask_chroma` computes from its inputs. -/
structure AskResponse where
  context_text : String
  prompt : String
  answer : String
  sources : List (Option String)
  formatted_response : String

/-- `ask_chroma` (views.py lines 131-157).  The similarity search and the
generative model are external collaborators: `results` is the list of
`(document, score)` pairs `db.similarity_search_with_score` returned (in
the order it returned them), and `invoke` is the model.  The score type
is abstract because the code discards the scores. -/
def ask_chroma {σ : Type} (message : String) (results : List (Document × σ))
    (invoke : String → String) : AskResponse :=
  let context_text :=
    pyJoin "\n\n---\n\n" (results.map (fun r => r.1.page_content))
  let prompt := format_prompt context_text message
  let answer := invoke prompt
  let sources := results.map (fun r => metaGet r.1.metadata "id")
  { context_text := context_text
    prompt := prompt
    answer := answer
    sources := sources
    formatted_response :=
      "Response: " ++ answer ++ "<br>Sources: " ++ pyReprSources sources }

/-- The JSON body of the `JsonResponse` built by the `chatbot` view. -/
structure JsonResp where
  message : String
  response : String
deriving DecidableEq

/-- The `message == "Populate"` branch of the `chatbot` view (views.py
lines 179-185): run the ingestion pipeline, then answer with the fixed
strings.  Document loading and splitting are external, so the produced
chunk list is a parameter. -/
def chatbot_populate (chunks : List Document) (db : ChromaDB) :
    Option (ChromaDB × JsonResp) :=
  match add_to_chroma chunks db with
  | none => none
  | some r => some (r.db, ⟨"Populate", "Database populated"⟩)

/-- Modelled from the spec (§4.2): the IdentityAssigner state transition,
"maintain a current page identity and a running counter; while the
incoming chunk's page identity equals the previous chunk's, increment
the counter; when it changes, reset the counter to 0". -/
def specStep : Option String × Nat → String → Option String × Nat
  | st, p => (some p, if some p = st.1 then st.2 + 1 else 0)

/-- Modelled from the spec (§4.2): run the IdentityAssigner state machine
over the page identities, emitting `id = f"{sourcePath}:{pageNumber}:
{chunkIndex}"` for each chunk. -/
def specAssignIds : Option String × Nat → List String → List String
  | _, [] => []
  | st, p :: ps =>
    let c := if some p = st.1 then st.2 + 1 else 0
    (p ++ ":" ++ natToString c) :: specAssignIds (some p, c) ps

/-- Modelled from the spec (§4.2): the ids the stated algorithm assigns,
starting from no previous page identity and counter 0. -/
def specChunkIds (pageIds : List String) : List String :=
  specAssignIds (none, 0) pageIds

/-- Modelled from the spec (§4.4 step 3): "concatenate the text of the
results in order, each separated by a fixed delimiter". -/
def specContextBlock : List String → String
  | [] => ""
  | [t] => t
  | t :: ts => t ++ "\n\n---\n\n" ++ specContextBlock ts

/-- Value of a decimal digit string (big-endian), used to invert
`natChars`. -/
def valChars (l : List Char) : Nat :=
  l.foldl (fun a c => 10 * a + chval c) 0

/-- Sample chunk used to instantiate theorems with hypotheses. -/
def sampleChunk : Document :=
  ⟨"hello world", [("source", "a.pdf"), ("page", "0")]⟩

/-- A second sample chunk on another page of the same file. -/
def sampleChunk2 : Document :=
  ⟨"more text", [("source", "a.pdf"), ("page", "1")]⟩

/-- A sample chunk with no identity metadata at all. -/
def sampleChunkNoMeta : Document := ⟨"orphan text", []⟩

/-- The empty vector store. -/
def sampleDB : ChromaDB := ⟨[]⟩

/-- `sampleChunk` after id assignment. -/
def sampleChunkWithId : Document :=
  ⟨"hello world", [("source", "a.pdf"), ("page", "0"), ("id", "a.pdf:0:0")]⟩

/-! ## Properties of the decimal printer -/

theorem digitOf_ne_colon (d : Nat) (h : d < 10) : digitOf d ≠ ':' := by
  interval_cases d <;> decide

theorem chval_digitOf (d : Nat) (h : d < 10) : chval (digitOf d) = d := by
  interval_cases d <;> decide

theorem natCharsAux_congr (f₁ : Nat) :
    ∀ f₂ n, n < f₁ → n < f₂ → natCharsAux f₁ n = natCharsAux f₂ n := by
  induction f₁ with
  | zero => intro f₂ n h1 _; omega
  | succ f ih =>
    intro f₂ n h1 h2
    cases f₂ with
    | zero => omega
    | succ g =>
      unfold natCharsAux
      by_cases hn : n < 10
      · simp [hn]
      · have hdiv : n / 10 < n := Nat.div_lt_self (by omega) (by omega)
        simp only [hn, if_false]
        rw [ih g (n / 10) (by omega) (by omega)]

theorem natCharsAux_eq_natChars (fuel n : Nat) (h : n < fuel) :
    natCharsAux fuel n = natChars n :=
  natCharsAux_congr fuel (n + 1) n h (Nat.lt_succ_self n)

theorem valChars_append_digit (l : List Char) (c : Char) :
    valChars (l ++ [c]) = 10 * valChars l + chval c := by
  simp [valChars, List.foldl_append]

theorem valChars_natChars (n : Nat) : valChars (natChars n) = n := by
  induction n using Nat.strong_induction_on with
  | _ n ih =>
    unfold natChars natCharsAux
    by_cases hn : n < 10
    · simp only [hn, if_true]
      simp [valChars, List.foldl, chval_digitOf n hn]
    · have hdiv : n / 10 < n := Nat.div_lt_self (by omega) (by omega)
      simp only [hn, if_false]
      rw [natCharsAux_eq_natChars n (n / 10) hdiv, valChars_append_digit,
        ih (n / 10) hdiv, chval_digitOf (n % 10) (Nat.mod_lt n (by omega))]
      omega

theorem natChars_injective : Function.Injective natChars := by
  intro a b h
  have := congrArg valChars h
  rwa [valChars_natChars, valChars_natChars] at this

theorem colon_not_mem_natChars (n : Nat) : ':' ∉ natChars n := by
  induction n using Nat.strong_induction_on with
  | _ n ih =>
    unfold natChars natCharsAux
    by_cases hn : n < 10
    · simp only [hn, if_true, List.mem_singleton]
      exact fun h => digitOf_ne_colon n hn h.symm
    · have hdiv : n / 10 < n := Nat.div_lt_self (by omega) (by omega)
      simp only [hn, if_false, List.mem_append, List.mem_singleton]
      rintro (h | h)
      · rw [natCharsAux_eq_natChars n (n / 10) hdiv] at h
        exact ih (n / 10) hdiv h
      · exact digitOf_ne_colon (n % 10) (Nat.mod_lt n (by omega)) h.symm

/-! ## Splitting an id string at its last colon -/

theorem colon_split (u : List Char) :
    ∀ (x v y : List Char), ':' ∉ v → ':' ∉ y →
      u ++ ':' :: v = x ++ ':' :: y → u = x ∧ v = y := by
  induction u with
  | nil =>
    intro x v y hv hy h
    cases x with
    | nil =>
      simp only [List.nil_append, List.cons.injEq] at h
      exact ⟨rfl, h.2⟩
    | cons b xs =>
      simp only [List.nil_append, List.cons_append, List.cons.injEq] at h
      exfalso
      apply hv
      rw [h.2]
      exact List.mem_append_right _ (List.mem_cons_self _ _)
  | cons a us ih =>
    intro x v y hv hy h
    cases x with
    | nil =>
      simp only [List.cons_append, List.nil_append, List.cons.injEq] at h
      exfalso
      apply hy
      rw [← h.2]
      exact List.mem_append_right _ (List.mem_cons_self _ _)
    | cons b xs =>
      simp only [List.cons_append, List.cons.injEq] at h
      obtain ⟨hab, hrest⟩ := h
      obtain ⟨h1, h2⟩ := ih xs v y hv hy hrest
      exact ⟨by rw [hab, h1], h2⟩

theorem data_colon : (":" : String).data = [':'] := rfl

theorem id_split (p₁ p₂ : String) (c₁ c₂ : Nat)
    (h : p₁ ++ ":" ++ natToString c₁ = p₂ ++ ":" ++ natToString c₂) :
    p₁ = p₂ ∧ c₁ = c₂ := by
  have hd := congrArg String.data h
  simp only [String.data_append, data_colon, natToString, List.append_assoc,
    List.singleton_append] at hd
  obtain ⟨h1, h2⟩ := colon_split p₁.data p₂.data (natChars c₁) (natChars c₂)
    (colon_not_mem_natChars c₁) (colon_not_mem_natChars c₂) hd
  exact ⟨String.ext h1, natChars_injective h2⟩

/-! ## Metadata dictionary lemmas -/

theorem find_cons_eq {α : Type} (p : α → Bool) (a : α) (l : List α) :
    (a :: l).find? p = bif p a then some a else l.find? p := rfl

theorem find_append_new (k v : String) (m : List (String × String))
    (hm : m.find? (fun p => p.1 == k) = none) :
    (m ++ [(k, v)]).find? (fun p => p.1 == k) = some (k, v) := by
  induction m with
  | nil => simp [find_cons_eq]
  | cons p ps ih =>
    rw [find_cons_eq] at hm
    rw [List.cons_append, find_cons_eq]
    cases hp : (p.1 == k) with
    | true => simp [hp] at hm
    | false =>
      simp only [hp, cond_false] at hm ⊢
      exact ih hm

theorem find_map_overwrite (k v : String) (m : List (String × String)) :
    (m.map (fun p => if (p.1 == k) = true then (k, v) else p)).find?
        (fun p => p.1 == k) =
      (m.find? (fun p => p.1 == k)).map (fun _ => (k, v)) := by
  induction m with
  | nil => simp
  | cons p ps ih =>
    simp only [List.map_cons, find_cons_eq]
    cases hp : (p.1 == k) with
    | true =>
      rw [if_pos rfl]
      simp only [hp, cond_true, beq_self_eq_true, Option.map_some']
    | false =>
      rw [if_neg (by simp [hp])]
      simp only [hp, cond_false]
      exact ih

theorem find_map_overwrite_other (k v k' : String) (hk : k' ≠ k)
    (m : List (String × String)) :
    (m.map (fun p => if (p.1 == k) = true then (k, v) else p)).find?
        (fun p => p.1 == k') =
      m.find? (fun p => p.1 == k') := by
  induction m with
  | nil => simp
  | cons p ps ih =>
    simp only [List.map_cons, find_cons_eq]
    cases hp : (p.1 == k) with
    | true =>
      have hpk : p.1 = k := by simpa using hp
      have h2 : (p.1 == k') = false := by
        simp only [beq_eq_false_iff_ne, ne_eq, hpk]
        exact fun h => hk h.symm
      have h1 : ((k, v).1 == k') = false := by simpa [hpk] using h2
      rw [if_pos rfl]
      simp only [h1, h2, cond_false]
      exact ih
    | false =>
      rw [if_neg (by simp [hp])]
      cases hq : (p.1 == k') with
      | true => simp only [hq, cond_true]
      | false =>
        simp only [hq, cond_false]
        exact ih

theorem find_append_other (k v k' : String) (hk : k' ≠ k)
    (m : List (String × String)) :
    (m ++ [(k, v)]).find? (fun p => p.1 == k') =
      m.find? (fun p => p.1 == k') := by
  induction m with
  | nil =>
    have h1 : ((k, v).1 == k') = false := by
      simp only [beq_eq_false_iff_ne, ne_eq]
      exact fun h => hk h.symm
    simp [find_cons_eq, h1]
  | cons p ps ih =>
    rw [List.cons_append, find_cons_eq, find_cons_eq]
    cases hq : (p.1 == k') with
    | true => simp only [hq, cond_true]
    | false =>
      simp only [hq, cond_false]
      exact ih

theorem metaGet_metaSet_same (m : List (String × String)) (k v : String) :
    metaGet (metaSet m k v) k = some v := by
  unfold metaGet metaSet
  by_cases h : (m.find? (fun p => p.1 == k)).isSome
  · rw [if_pos h, find_map_overwrite]
    obtain ⟨q, hq⟩ := Option.isSome_iff_exists.mp h
    simp [hq]
  · rw [if_neg h, find_append_new k v m (Option.not_isSome_iff_eq_none.mp h)]
    rfl

theorem metaGet_metaSet_other (m : List (String × String)) (k v k' : String)
    (hk : k' ≠ k) : metaGet (metaSet m k v) k' = metaGet m k' := by
  unfold metaGet metaSet
  by_cases h : (m.find? (fun p => p.1 == k)).isSome
  · rw [if_pos h, find_map_overwrite_other k v k' hk]
  · rw [if_neg h, find_append_other k v k' hk]

/-! ## Bridging `calculate_chunk_ids` to the spec id-assignment machine -/

theorem calcGo_map_getId (chunks : List Document) :
    ∀ last cur, (calcGo last cur chunks).map getId =
      (specAssignIds (last, cur) (chunks.map pageIdOf)).map some := by
  induction chunks with
  | nil => intro last cur; simp [calcGo, specAssignIds]
  | cons c cs ih =>
    intro last cur
    simp only [calcGo, List.map_cons, specAssignIds, List.cons.injEq]
    refine ⟨?_, ih (some (pageIdOf c)) _⟩
    simp [getId, metaGet_metaSet_same]

theorem ids_present (chunks : List Document) (c : Document)
    (hc : c ∈ calculate_chunk_ids chunks) : ∃ i, getId c = some i := by
  have h := calcGo_map_getId chunks none 0
  have hmem : getId c ∈ (calcGo none 0 chunks).map getId :=
    List.mem_map_of_mem getId hc
  rw [h] at hmem
  obtain ⟨i, _, hi⟩ := List.mem_map.mp hmem
  exact ⟨i, hi.symm⟩

theorem calcGo_frame (chunks : List Document) :
    ∀ (last : Option String) (cur i : Nat), ∃ v : String,
      (calcGo last cur chunks)[i]? =
      (chunks[i]?).map (fun c =>
        Document.mk c.page_content (metaSet c.metadata "id" v)) := by
  induction chunks with
  | nil => intro last cur i; exact ⟨"", by simp [calcGo]⟩
  | cons c cs ih =>
    intro last cur i
    cases i with
    | zero =>
      refine ⟨pageIdOf c ++ ":" ++
        natToString (if some (pageIdOf c) = last then cur + 1 else 0), ?_⟩
      simp [calcGo]
    | succ j =>
      obtain ⟨v, hv⟩ := ih (some (pageIdOf c))
        (if some (pageIdOf c) = last then cur + 1 else 0) j
      exact ⟨v, by simpa [calcGo] using hv⟩

/-! ## Uniqueness of assigned ids over page-grouped input -/

theorem specAssignIds_append (xs : List String) :
    ∀ (ys : List String) (st : Option String × Nat),
      specAssignIds st (xs ++ ys) =
        specAssignIds st xs ++ specAssignIds (xs.foldl specStep st) ys := by
  induction xs with
  | nil => intro ys st; simp [specAssignIds]
  | cons p ps ih =>
    intro ys st
    simp only [List.cons_append, specAssignIds, List.foldl_cons,
      List.append_eq]
    have h := ih ys (specStep st p)
    simp only [specStep] at h
    rw [h]
    simp only [specStep]

theorem specAssignIds_replicate (n : Nat) :
    ∀ (p : String) (c : Nat),
      specAssignIds (some p, c) (List.replicate n p) =
        (List.range n).map (fun i => p ++ ":" ++ natToString (c + 1 + i)) := by
  induction n with
  | zero => intro p c; simp [specAssignIds]
  | succ m ih =>
    intro p c
    rw [List.replicate_succ]
    simp only [specAssignIds, eq_self_iff_true, if_true]
    rw [ih p (c + 1), List.range_succ_eq_map, List.map_cons, List.map_map]
    refine congrArg₂ _ (by rw [Nat.add_zero]) ?_
    apply List.map_congr_left
    intro i _
    simp only [Function.comp_apply, Nat.succ_eq_add_one]
    rw [show c + 1 + 1 + i = c + 1 + (i + 1) by omega]

theorem foldl_specStep_replicate (n : Nat) :
    ∀ (p : String) (c : Nat),
      (List.replicate n p).foldl specStep (some p, c) = (some p, c + n) := by
  induction n with
  | zero => intro p c; simp
  | succ m ih =>
    intro p c
    rw [List.replicate_succ, List.foldl_cons]
    have hstep : specStep (some p, c) p = (some p, c + 1) := by
      simp [specStep]
    rw [hstep, ih p (c + 1)]
    exact congrArg _ (by omega)

theorem specAssignIds_mem (ps : List String) :
    ∀ (st : Option String × Nat) (x : String), x ∈ specAssignIds st ps →
      ∃ q c, q ∈ ps ∧ x = q ++ ":" ++ natToString c := by
  induction ps with
  | nil => intro st x hx; simp [specAssignIds] at hx
  | cons p ts ih =>
    intro st x hx
    simp only [specAssignIds, List.mem_cons] at hx
    rcases hx with hx | hx
    · exact ⟨p, _, List.mem_cons_self p ts, hx⟩
    · obtain ⟨q, c, hq, hqx⟩ := ih (specStep st p) x hx
      exact ⟨q, c, List.mem_cons_of_mem p hq, hqx⟩

theorem specAssignIds_run_nodup (n : Nat) (p : String)
    (st : Option String × Nat) :
    (specAssignIds st (List.replicate n p)).Nodup := by
  cases n with
  | zero => simp [specAssignIds]
  | succ m =>
    rw [List.replicate_succ]
    simp only [specAssignIds]
    rw [specAssignIds_replicate m p _]
    refine List.nodup_cons.mpr ⟨?_, ?_⟩
    · intro hmem
      obtain ⟨i, _, hi⟩ := List.mem_map.mp hmem
      obtain ⟨-, hc⟩ := id_split _ _ _ _ hi.symm
      omega
    · refine List.Nodup.map ?_ (List.nodup_range m)
      intro i j hij
      obtain ⟨-, hc⟩ := id_split _ _ _ _ hij
      omega

theorem specAssignIds_flat_nodup (groups : List (String × Nat)) :
    ∀ st : Option String × Nat, (groups.map Prod.fst).Nodup →
      (specAssignIds st
        (groups.flatMap (fun g => List.replicate g.2 g.1))).Nodup := by
  induction groups with
  | nil => intro st _; simp [specAssignIds]
  | cons g gs ih =>
    intro st hnd
    rw [List.map_cons] at hnd
    rw [List.flatMap_cons, specAssignIds_append]
    refine List.Nodup.append (specAssignIds_run_nodup g.2 g.1 st) ?_ ?_
    · exact ih _ (List.Nodup.of_cons hnd)
    · intro x hx hx'
      obtain ⟨q, c, hq, hqx⟩ := specAssignIds_mem _ _ _ hx
      have hqp : q = g.1 := List.eq_of_mem_replicate hq
      obtain ⟨q', c', hq', hqx'⟩ := specAssignIds_mem _ _ _ hx'
      obtain ⟨g', hg', hqg'⟩ := List.mem_flatMap.mp hq'
      have hq'g : q' = g'.1 := List.eq_of_mem_replicate hqg'
      have heq : q ++ ":" ++ natToString c = q' ++ ":" ++ natToString c' := by
        rw [← hqx, ← hqx']
      have hpq : q = q' := (id_split _ _ _ _ heq).1
      have hfst : g.1 ∈ gs.map Prod.fst := by
        rw [← hqp, hpq, hq'g]
        exact List.mem_map_of_mem Prod.fst hg'
      exact (List.nodup_cons.mp hnd).1 hfst

/-! ## Characterising the ingestion run -/

theorem select_new_spec (ids : List String) (l : List Document)
    (h : ∀ c ∈ l, ∃ i, getId c = some i) :
    ∃ r, select_new ids l = some r ∧
      ∀ q : String × Document, q ∈ r ↔
        q.2 ∈ l ∧ getId q.2 = some q.1 ∧ ids.contains q.1 = false := by
  induction l with
  | nil => exact ⟨[], rfl, by simp⟩
  | cons c cs ih =>
    obtain ⟨i, hi⟩ := h c (List.mem_cons_self c cs)
    obtain ⟨rest, hrest, hiff⟩ :=
      ih (fun c' hc' => h c' (List.mem_cons_of_mem c hc'))
    cases hmem : ids.contains i with
    | true =>
      refine ⟨rest, ?_, ?_⟩
      · simp only [select_new, hi, hrest, hmem, if_true]
      · intro q
        constructor
        · intro hq
          obtain ⟨h1, h2, h3⟩ := (hiff q).mp hq
          exact ⟨List.mem_cons_of_mem c h1, h2, h3⟩
        · rintro ⟨h1, h2, h3⟩
          rcases List.mem_cons.mp h1 with h1 | h1
          · exfalso
            rw [h1, hi] at h2
            have hq1 : q.1 = i := Option.some_injective _ h2.symm
            rw [hq1, hmem] at h3
            exact absurd h3 (by simp)
          · exact (hiff q).mpr ⟨h1, h2, h3⟩
    | false =>
      refine ⟨(i, c) :: rest, ?_, ?_⟩
      · simp only [select_new, hi, hrest, hmem]
        rfl
      · intro q
        constructor
        · intro hq
          rcases List.mem_cons.mp hq with hq | hq
          · rw [hq]
            exact ⟨List.mem_cons_self c cs, hi, hmem⟩
          · obtain ⟨h1, h2, h3⟩ := (hiff q).mp hq
            exact ⟨List.mem_cons_of_mem c h1, h2, h3⟩
        · rintro ⟨h1, h2, h3⟩
          rcases List.mem_cons.mp h1 with h1 | h1
          · have hq1 : q.1 = i := by
              rw [h1, hi] at h2
              exact Option.some_injective _ h2.symm
            exact List.mem_cons.mpr (Or.inl (Prod.ext_iff.mpr ⟨hq1, h1⟩))
          · exact List.mem_cons_of_mem _ ((hiff q).mpr ⟨h1, h2, h3⟩)

theorem select_new_all_present (ids : List String) (l : List Document)
    (h : ∀ c ∈ l, ∃ i, getId c = some i ∧ ids.contains i = true) :
    select_new ids l = some [] := by
  induction l with
  | nil => rfl
  | cons c cs ih =>
    obtain ⟨i, hi, hmem⟩ := h c (List.mem_cons_self c cs)
    have hrest := ih (fun c' hc' => h c' (List.mem_cons_of_mem c hc'))
    simp only [select_new, hi, hrest, hmem, if_true]

theorem chroma_ids_append (a b : List (String × Document)) :
    ChromaDB.ids ⟨a ++ b⟩ = a.map Prod.fst ++ b.map Prod.fst := by
  simp [ChromaDB.ids]

theorem add_to_chroma_unfold (chunks : List Document) (db : ChromaDB) :
    ∃ new,
      select_new db.ids (calculate_chunk_ids chunks) = some new ∧
      add_to_chroma chunks db = some
        { db := ⟨db.entries ++ new⟩
          added_count := new.length
          log := ("Number of existing documents in DB: " ++
              natToString db.ids.dedup.length) ::
            (if new.length ≠ 0 then
              ["👉 Adding new documents: " ++ natToString new.length]
            else ["✅ No new documents to add"]) } ∧
      ∀ q : String × Document, q ∈ new ↔
        q.2 ∈ calculate_chunk_ids chunks ∧ getId q.2 = some q.1 ∧
          db.ids.contains q.1 = false := by
  obtain ⟨new, hnew, hiff⟩ :=
    select_new_spec db.ids _ (fun c hc => ids_present chunks c hc)
  refine ⟨new, hnew, ?_, hiff⟩
  simp only [add_to_chroma, hnew]

theorem contains_eq_false_iff (l : List String) (a : String) :
    l.contains a = false ↔ a ∉ l := by
  constructor
  · intro h hm
    have hc : l.contains a = true := List.elem_iff.mpr hm
    rw [h] at hc
    exact absurd hc (by simp)
  · intro h
    cases hc : l.contains a with
    | false => rfl
    | true => exact absurd (List.elem_iff.mp hc) h

theorem calcGo_length (chunks : List Document) :
    ∀ (last : Option String) (cur : Nat),
      (calcGo last cur chunks).length = chunks.length := by
  induction chunks with
  | nil => intro last cur; rfl
  | cons c cs ih =>
    intro last cur
    simp only [calcGo, List.length_cons, ih]

theorem pyJoin_foldl_pull (sep : String) (l : List String) :
    ∀ a b : String,
      l.foldl (fun acc x => acc ++ sep ++ x) (a ++ b) =
        a ++ l.foldl (fun acc x => acc ++ sep ++ x) b := by
  induction l with
  | nil => intro a b; rfl
  | cons x xs ih =>
    intro a b
    simp only [List.foldl_cons]
    rw [show a ++ b ++ sep ++ x = a ++ (b ++ sep ++ x) by
      simp [String.append_assoc]]
    exact ih a (b ++ sep ++ x)

theorem pyJoin_eq_specContextBlock (l : List String) :
    pyJoin "\n\n---\n\n" l = specContextBlock l := by
  induction l with
  | nil => rfl
  | cons t ts ih =>
    cases ts with
    | nil => rfl
    | cons u us =>
      have step : pyJoin "\n\n---\n\n" (t :: u :: us) =
          t ++ "\n\n---\n\n" ++ pyJoin "\n\n---\n\n" (u :: us) := by
        show (u :: us).foldl (fun acc x => acc ++ "\n\n---\n\n" ++ x) t =
          t ++ "\n\n---\n\n" ++
            us.foldl (fun acc x => acc ++ "\n\n---\n\n" ++ x) u
        simp only [List.foldl_cons]
        exact pyJoin_foldl_pull "\n\n---\n\n" us (t ++ "\n\n---\n\n") u
      rw [step, ih]
      rfl

/-! ## Claim C1 -/

/-- C1: every `add_to_chroma` run succeeds; the previously stored entries
are left untouched (they remain, unchanged and in order, as a prefix of
the resulting store); and the entries it appends are exactly the
identified chunks whose id was not already among the stored ids. -/
theorem add_to_chroma_adds_exactly_new (chunks : List Document)
    (db : ChromaDB) :
    ∃ r, add_to_chroma chunks db = some r ∧
      db.entries <+: r.db.entries ∧
      ∀ q : String × Document,
        q ∈ r.db.entries ↔ q ∈ db.entries ∨
          (q.2 ∈ calculate_chunk_ids chunks ∧ getId q.2 = some q.1 ∧
            q.1 ∉ db.ids) := by
  obtain ⟨new, hsel, hadd, hiff⟩ := add_to_chroma_unfold chunks db
  refine ⟨_, hadd, ⟨new, rfl⟩, ?_⟩
  intro q
  show q ∈ db.entries ++ new ↔ _
  rw [List.mem_append]
  constructor
  · rintro (hq | hq)
    · exact Or.inl hq
    · obtain ⟨h1, h2, h3⟩ := (hiff q).mp hq
      exact Or.inr ⟨h1, h2, (contains_eq_false_iff _ _).mp h3⟩
  · rintro (hq | ⟨h1, h2, h3⟩)
    · exact Or.inl hq
    · exact Or.inr ((hiff q).mpr ⟨h1, h2, (contains_eq_false_iff _ _).mpr h3⟩)

/-- C1 witness: the dedup characterisation instantiated on a concrete
one-chunk ingestion into an empty store. -/
theorem add_to_chroma_adds_exactly_new_witness :
    ∃ r, add_to_chroma [sampleChunk] sampleDB = some r ∧
      sampleDB.entries <+: r.db.entries ∧
      ∀ q : String × Document,
        q ∈ r.db.entries ↔ q ∈ sampleDB.entries ∨
          (q.2 ∈ calculate_chunk_ids [sampleChunk] ∧ getId q.2 = some q.1 ∧
            q.1 ∉ sampleDB.ids) :=
  add_to_chroma_adds_exactly_new [sampleChunk] sampleDB

/-! ## Claim C2 -/

/-- C2: the ids `calculate_chunk_ids` assigns are exactly those of the
spec's stated algorithm: a running counter incremented while the chunk's
page identity `source:page` equals the previous chunk's, reset to 0 when
it changes, and id = `source:page:counter`. -/
theorem calculate_chunk_ids_follows_algorithm (chunks : List Document) :
    (calculate_chunk_ids chunks).map getId =
      (specChunkIds (chunks.map pageIdOf)).map some :=
  calcGo_map_getId chunks none 0

/-- C2 witness: the algorithm equivalence instantiated on two chunks of
one page followed by one chunk of a second page. -/
theorem calculate_chunk_ids_follows_algorithm_witness :
    (calculate_chunk_ids [sampleChunk, sampleChunk, sampleChunk2]).map getId =
      (specChunkIds
        ([sampleChunk, sampleChunk, sampleChunk2].map pageIdOf)).map some :=
  calculate_chunk_ids_follows_algorithm [sampleChunk, sampleChunk, sampleChunk2]

/-! ## Claim C3 -/

/-- C3: ingestion is idempotent: a second `add_to_chroma` run over the
same unchanged chunk sequence succeeds, leaves the store contents
identical, and adds zero new entries. -/
theorem add_to_chroma_idempotent (chunks : List Document) (db : ChromaDB) :
    ∃ r r', add_to_chroma chunks db = some r ∧
      add_to_chroma chunks r.db = some r' ∧
      r'.db = r.db ∧ r'.added_count = 0 := by
  obtain ⟨new, hsel, hadd, hiff⟩ := add_to_chroma_unfold chunks db
  have hall : ∀ c ∈ calculate_chunk_ids chunks, ∃ i, getId c = some i ∧
      (ChromaDB.mk (db.entries ++ new)).ids.contains i = true := by
    intro c hc
    obtain ⟨i, hi⟩ := ids_present chunks c hc
    refine ⟨i, hi, ?_⟩
    rw [chroma_ids_append]
    apply List.elem_iff.mpr
    rw [List.mem_append]
    cases hc2 : db.ids.contains i with
    | true =>
      exact Or.inl (List.elem_iff.mp hc2)
    | false =>
      refine Or.inr ?_
      have hmem : (i, c) ∈ new := (hiff (i, c)).mpr ⟨hc, hi, hc2⟩
      exact List.mem_map_of_mem Prod.fst hmem
  have hsel2 : select_new (ChromaDB.mk (db.entries ++ new)).ids
      (calculate_chunk_ids chunks) = some [] :=
    select_new_all_present _ _ hall
  obtain ⟨new2, hsel2', hadd2, -⟩ :=
    add_to_chroma_unfold chunks ⟨db.entries ++ new⟩
  rw [hsel2] at hsel2'
  obtain rfl : new2 = [] := (Option.some_injective _ hsel2').symm
  refine ⟨_, _, hadd, hadd2, ?_, rfl⟩
  show ChromaDB.mk (db.entries ++ new ++ []) = ChromaDB.mk (db.entries ++ new)
  rw [List.append_nil]

/-- C3 witness: idempotence instantiated on a concrete one-chunk
ingestion into an empty store. -/
theorem add_to_chroma_idempotent_witness :
    ∃ r r', add_to_chroma [sampleChunk] sampleDB = some r ∧
      add_to_chroma [sampleChunk] r.db = some r' ∧
      r'.db = r.db ∧ r'.added_count = 0 :=
  add_to_chroma_idempotent [sampleChunk] sampleDB

/-! ## Claim C4 -/

/-- C4 counterexample: two populate runs that persist different numbers
of new chunks (one and zero) return the very same response record — the
fixed pair `("Populate", "Database populated")` — so the response cannot
carry an `addedCount` equal to the number of newly persisted chunks. -/
theorem populate_response_carries_no_count :
    chatbot_populate [sampleChunk] sampleDB =
      some (⟨[("a.pdf:0:0", sampleChunkWithId)]⟩,
        ⟨"Populate", "Database populated"⟩) ∧
    chatbot_populate [] sampleDB =
      some (sampleDB, ⟨"Populate", "Database populated"⟩) ∧
    (add_to_chroma [sampleChunk] sampleDB).map AddResult.added_count =
      some 1 ∧
    (add_to_chroma [] sampleDB).map AddResult.added_count = some 0 := by
  refine ⟨?_, ?_, ?_, ?_⟩ <;> decide

/-- C4 (amended): a populate request always answers with the fixed
response `("Populate", "Database populated")`; the count of newly added
chunks is reported only on the server console, where `add_to_chroma`
prints either the added count or the no-new-documents line. -/
theorem chatbot_populate_fixed_response (chunks : List Document)
    (db : ChromaDB) :
    ∃ r, add_to_chroma chunks db = some r ∧
      chatbot_populate chunks db =
        some (r.db, ⟨"Populate", "Database populated"⟩) ∧
      (r.added_count ≠ 0 →
        ("👉 Adding new documents: " ++ natToString r.added_count) ∈
          r.log) ∧
      (r.added_count = 0 → "✅ No new documents to add" ∈ r.log) := by
  obtain ⟨new, hsel, hadd, -⟩ := add_to_chroma_unfold chunks db
  refine ⟨_, hadd, ?_, ?_, ?_⟩
  · simp only [chatbot_populate, hadd]
  · intro h
    simp only [AddResult.added_count] at h
    simp [h]
  · intro h
    simp only [AddResult.added_count] at h
    simp [h]

/-- C4 amended-claim witness: the fixed response and the console count
line on a concrete run that adds one chunk. -/
theorem chatbot_populate_fixed_response_witness :
    ∃ r, add_to_chroma [sampleChunk] sampleDB = some r ∧
      ("👉 Adding new documents: " ++ natToString r.added_count) ∈ r.log := by
  obtain ⟨r, hadd, -, hlog, -⟩ :=
    chatbot_populate_fixed_response [sampleChunk] sampleDB
  have hc : (add_to_chroma [sampleChunk] sampleDB).map
      AddResult.added_count = some 1 := by decide
  rw [hadd, Option.map_some'] at hc
  have hc1 : r.added_count = 1 := Option.some_injective _ hc
  exact ⟨r, hadd, hlog (by rw [hc1]; exact one_ne_zero)⟩

/-! ## Claim C5 -/

/-- C5: whenever the chunk sequence is page-grouped — its page-identity
strings (`source:page`, the identity the code computes) form consecutive
runs, and distinct runs have pairwise distinct identities, which is the
claim's proviso that distinct pages have distinct identities — the ids
assigned by `calculate_chunk_ids` are pairwise distinct across the whole
sequence. -/
theorem calculate_chunk_ids_unique (chunks : List Document)
    (groups : List (String × Nat))
    (hgrouped : chunks.map pageIdOf =
      groups.flatMap (fun g => List.replicate g.2 g.1))
    (hdistinct : (groups.map Prod.fst).Nodup) :
    ((calculate_chunk_ids chunks).map getId).Nodup := by
  simp only [calculate_chunk_ids]
  rw [calcGo_map_getId chunks none 0, hgrouped]
  exact List.Nodup.map (Option.some_injective _)
    (specAssignIds_flat_nodup groups (none, 0) hdistinct)

/-- C5 witness: uniqueness on a concrete page-grouped sequence — two
chunks of page `a.pdf:0` followed by one chunk of page `a.pdf:1`. -/
theorem calculate_chunk_ids_unique_witness :
    ((calculate_chunk_ids [sampleChunk, sampleChunk, sampleChunk2]).map
      getId).Nodup :=
  calculate_chunk_ids_unique [sampleChunk, sampleChunk, sampleChunk2]
    [("a.pdf:0", 2), ("a.pdf:1", 1)] (by decide) (by decide)

/-! ## Claim C6 -/

/-- C6: the context block `ask_chroma` builds is exactly the
concatenation of the retrieved chunks' texts, in the order the search
returned them, with the fixed delimiter between consecutive texts. -/
theorem ask_chroma_context_is_delimited_concat {σ : Type} (message : String)
    (results : List (Document × σ)) (invoke : String → String) :
    (ask_chroma message results invoke).context_text =
      specContextBlock (results.map (fun r => r.1.page_content)) := by
  show pyJoin "\n\n---\n\n" (results.map (fun r => r.1.page_content)) = _
  exact pyJoin_eq_specContextBlock _

/-- C6 witness: the context block for two concrete results. -/
theorem ask_chroma_context_witness :
    (ask_chroma "q" [(sampleChunk, 0), (sampleChunk2, 1)] id).context_text =
      specContextBlock
        ([(sampleChunk, 0), (sampleChunk2, 1)].map
          (fun r => r.1.page_content)) :=
  ask_chroma_context_is_delimited_concat "q" [(sampleChunk, 0),
    (sampleChunk2, 1)] id

/-! ## Claim C7 -/

/-- C7: with zero retrieval results (`k = 0`, or a search against an
empty index), `ask_chroma` still computes a full response — nothing
fails — and its context block is the empty string, its source list is
empty, and its formatted response embeds the generator's answer over the
empty context. -/
theorem ask_chroma_empty_results {σ : Type} (message : String)
    (invoke : String → String) :
    (ask_chroma message ([] : List (Document × σ)) invoke).context_text =
      "" ∧
    (ask_chroma message ([] : List (Document × σ)) invoke).sources = [] ∧
    (ask_chroma message ([] : List (Document × σ))
      invoke).formatted_response =
      "Response: " ++ invoke (format_prompt "" message) ++
        "<br>Sources: " ++ "[]" :=
  ⟨rfl, rfl, rfl⟩

/-- C7 witness: the empty-results response on a concrete query. -/
theorem ask_chroma_empty_results_witness :
    (ask_chroma "hi" ([] : List (Document × Nat)) id).context_text = "" ∧
    (ask_chroma "hi" ([] : List (Document × Nat)) id).sources = [] ∧
    (ask_chroma "hi" ([] : List (Document × Nat)) id).formatted_response =
      "Response: " ++ id (format_prompt "" "hi") ++ "<br>Sources: " ++ "[]" :=
  ask_chroma_empty_results "hi" id

/-! ## Claim C8 -/

/-- C8: the source list `ask_chroma` reports is positionally aligned with
the retrieval results: it has the same length, and at every index it
holds the result's `"id"` metadata — `none`, the missing-source marker,
exactly when that entry lacks identity metadata — so retrieval order is
preserved and a missing id never fails. -/
theorem ask_chroma_sources_positional {σ : Type} (message : String)
    (results : List (Document × σ)) (invoke : String → String) :
    (ask_chroma message results invoke).sources.length = results.length ∧
    ∀ i : Nat, (ask_chroma message results invoke).sources[i]? =
      (results[i]?).map (fun r => metaGet r.1.metadata "id") := by
  constructor
  · show (results.map (fun r => metaGet r.1.metadata "id")).length = _
    simp
  · intro i
    show (results.map (fun r => metaGet r.1.metadata "id"))[i]? = _
    exact List.getElem?_map _ results i

/-- C8 witness: on a concrete result list whose second entry has no
metadata at all, the reported sources are the id of the first entry
followed by the missing-source marker. -/
theorem ask_chroma_sources_positional_witness :
    (ask_chroma "q" [(sampleChunkWithId, 0), (sampleChunkNoMeta, 1)]
      id).sources[1]? = some none := by
  have h := (ask_chroma_sources_positional "q"
    [(sampleChunkWithId, 0), (sampleChunkNoMeta, 1)] id).2 1
  rw [h]
  decide

/-! ## Claim C9 -/

/-- C9: `clear_database` never fails: when the index directory is absent
it is a no-op, and in every state a first call leaves the index absent
and a second call succeeds changing nothing, so the index is absent
after both calls. -/
theorem clear_database_of_absent (fs : FS)
    (h : path_exists fs CHROMA_PATH = false) :
    clear_database fs = some fs := by
  simp [clear_database, h]

theorem clear_database_idempotent (fs : FS) :
    ∃ fs₁ fs₂, clear_database fs = some fs₁ ∧
      path_exists fs₁ CHROMA_PATH = false ∧
      (path_exists fs CHROMA_PATH = false → fs₁ = fs) ∧
      clear_database fs₁ = some fs₂ ∧ fs₂ = fs₁ := by
  cases h : path_exists fs CHROMA_PATH with
  | false =>
    exact ⟨fs, fs, clear_database_of_absent fs h, h, fun _ => rfl,
      clear_database_of_absent fs h, rfl⟩
  | true =>
    have habs : path_exists (fs.filter (fun q =>
        !(q == CHROMA_PATH || q.startsWith (CHROMA_PATH ++ "/"))))
        CHROMA_PATH = false := by
      apply (contains_eq_false_iff _ _).mpr
      intro hmem
      have hpred := List.of_mem_filter hmem
      simp at hpred
    refine ⟨_, _, ?_, habs, ?_, clear_database_of_absent _ habs, rfl⟩
    · simp [clear_database, h, rmtree]
    · intro hcontra
      exact absurd hcontra (by simp)

/-- C9 witness: clearing a filesystem that holds the index directory, a
file inside it and an unrelated path, then clearing again. -/
theorem clear_database_idempotent_witness :
    ∃ fs₁ fs₂,
      clear_database ["chroma", "chroma/db.sqlite3", "data"] = some fs₁ ∧
      path_exists fs₁ CHROMA_PATH = false ∧
      (path_exists ["chroma", "chroma/db.sqlite3", "data"] CHROMA_PATH =
          false → fs₁ = ["chroma", "chroma/db.sqlite3", "data"]) ∧
      clear_database fs₁ = some fs₂ ∧ fs₂ = fs₁ :=
  clear_database_idempotent ["chroma", "chroma/db.sqlite3", "data"]

/-! ## Claim C10 -/

/-- C10: `calculate_chunk_ids` returns the list it was given with ids
written in place: same length and order; at every position the chunk's
text is preserved and its metadata is exactly the original metadata with
only the `"id"` key written, so every key other than `"id"` reads
unchanged. -/
theorem calculate_chunk_ids_frame (chunks : List Document) :
    (calculate_chunk_ids chunks).length = chunks.length ∧
    ∀ i : Nat, ∃ v : String,
      (calculate_chunk_ids chunks)[i]? = (chunks[i]?).map
        (fun c => Document.mk c.page_content (metaSet c.metadata "id" v)) ∧
      ∀ k : String, k ≠ "id" →
        ((calculate_chunk_ids chunks)[i]?).map
            (fun c => metaGet c.metadata k) =
          (chunks[i]?).map (fun c => metaGet c.metadata k) := by
  constructor
  · exact calcGo_length chunks none 0
  · intro i
    obtain ⟨v, hv⟩ := calcGo_frame chunks none 0 i
    refine ⟨v, hv, ?_⟩
    intro k hk
    simp only [calculate_chunk_ids]
    rw [hv]
    cases hci : chunks[i]? with
    | none => rfl
    | some c =>
      simp only [Option.map_some']
      exact congrArg some (metaGet_metaSet_other c.metadata "id" v k hk)

/-- C10 witness: on a concrete one-chunk list, the length is preserved
and the `"source"` metadata key reads unchanged through id assignment. -/
theorem calculate_chunk_ids_frame_witness :
    (calculate_chunk_ids [sampleChunk]).length = [sampleChunk].length ∧
    ((calculate_chunk_ids [sampleChunk])[0]?).map
        (fun c => metaGet c.metadata "source") =
      ([sampleChunk][0]?).map (fun c => metaGet c.metadata "source") := by
  obtain ⟨hlen, hpt⟩ := calculate_chunk_ids_frame [sampleChunk]
  obtain ⟨v, -, hkeys⟩ := hpt 0
  exact ⟨hlen, hkeys "source" (by decide)⟩

end PersonalChatbot
